import Mathlib

/-!
Verification of the lyrecho synchronization core against its specification.

This file gives a shallow embedding, in Lean 4, of the parts of the Go
sources that the specification's testable claims are about:

* `internal/cache/cache.go` — the two-tier disk cache (`generateKey`,
  `Get`, `Set`, `readFromDisk`), including its SHA-256 based key scheme;
* `internal/player/player.go` — the player-state seek heuristic
  (`DetectSeek`) and the lyrics resolver (`Fetch`, `normalizeString`,
  `stripVersionInfo`, `toTitleCase`, the search-strategy list and its
  deduplication, `isTimeoutError`, `ParseSynced`, `FindCurrentLineIndex`).

Modelling conventions:

* Go strings are Lean `String` (a list of characters in this toolchain);
  byte-level operations (hashing) go through an explicit UTF-8 encoder.
  Go's Unicode case mapping (`strings.ToUpper` / `ToLower`,
  `unicode.IsSpace`) is modelled on its ASCII fragment, which is the
  fragment every concrete input in the claims exercises.
* Machine integers are `Nat`/`Int` with explicit reduction `% 2 ^ 32`
  where 32-bit overflow matters (the SHA-256 compression function).
* Wall-clock time is an explicit `Int` parameter (Unix seconds), passed
  to each operation that calls `time.Now()` in Go.
* `float64` lyric timestamps and durations are modelled as `ℚ`; every
  numeric literal appearing in the claims is exactly representable.
* Fallible operations return `Except`/`Option`; the I/O environment
  (the file tier, the remote lyric service) is explicit state passed in
  and out, so that every definition stays executable.
-/

/-! ## Basic character and string helpers (ASCII fragments of Go's stdlib) -/

/-- ASCII whitespace, the fragment of Go's `unicode.IsSpace` used here:
space, tab, newline, vertical tab, form feed, carriage return. -/
def isSpaceChar (c : Char) : Bool :=
  c = ' ' || c = '\t' || c = '\n' || c = Char.ofNat 11 || c = Char.ofNat 12 || c = '\r'

/-- `strings.TrimSpace` (ASCII fragment): drop whitespace on both ends. -/
def trimChars (l : List Char) : List Char :=
  ((l.dropWhile isSpaceChar).reverse.dropWhile isSpaceChar).reverse

/-- ASCII lower-casing of one character, Go's `strings.ToLower` on ASCII. -/
def lowerChar (c : Char) : Char :=
  if 65 ≤ c.toNat ∧ c.toNat ≤ 90 then Char.ofNat (c.toNat + 32) else c

/-- ASCII upper-casing of one character, Go's `strings.ToUpper` on ASCII. -/
def upperChar (c : Char) : Char :=
  if 97 ≤ c.toNat ∧ c.toNat ≤ 122 then Char.ofNat (c.toNat - 32) else c

/-- `strings.ToLower` on a Go string (ASCII fragment). -/
def goToLower (s : String) : String := ⟨s.data.map lowerChar⟩

/-- `strings.ToUpper` on a Go string (ASCII fragment). -/
def goToUpper (s : String) : String := ⟨s.data.map upperChar⟩

/-- `strings.TrimSpace` on a Go string. -/
def goTrimSpace (s : String) : String := ⟨trimChars s.data⟩

/-- The fixpoint of Go's
`for strings.Contains(s, "  ") { s = strings.ReplaceAll(s, "  ", " ") }`:
every run of consecutive space characters is collapsed to a single space.
Written with structural recursion so it reduces in the kernel. -/
def collapseSpaces : List Char → List Char
  | [] => []
  | [c] => [c]
  | c :: d :: rest =>
    if c = ' ' ∧ d = ' ' then collapseSpaces (d :: rest)
    else c :: collapseSpaces (d :: rest)

/-- `normalizeString` from `player.go`: trim, collapse internal double
spaces until none remain, trim again. -/
def normalizeString (s : String) : String :=
  ⟨trimChars (collapseSpaces (trimChars s.data))⟩

/-- One bracketed-span removal pass of `stripVersionInfo`, fuelled so the
definition is structural: while both the opening and the closing character
occur, and the first closing occurrence is after the first opening one,
replace the span (brackets included) by a single space.  Each step shrinks
the list, so `l.length` fuel is enough. -/
def removeSpansFuel (oc cc : Char) : Nat → List Char → List Char
  | 0, l => l
  | fuel + 1, l =>
    match l.findIdx? (· = oc), l.findIdx? (· = cc) with
    | some s, some e =>
      if e > s then removeSpansFuel oc cc fuel (l.take s ++ ' ' :: l.drop (e + 1))
      else l
    | some _, none => l
    | none, _ => l

/-- `stripVersionInfo` from `player.go`: trim, remove paired `(...)` spans,
remove paired `[...]` spans, collapse double spaces, trim. -/
def stripVersionInfo (s : String) : String :=
  let l1 := trimChars s.data
  let l2 := removeSpansFuel '(' ')' l1.length l1
  let l3 := removeSpansFuel '[' ']' l2.length l2
  ⟨trimChars (collapseSpaces l3)⟩

/-- `strings.Fields` (ASCII whitespace fragment): the whitespace-separated
words of a string, empties dropped. -/
def fieldsAux : List Char → List Char → List (List Char)
  | [], acc => if acc = [] then [] else [acc.reverse]
  | c :: rest, acc =>
    if isSpaceChar c then
      if acc = [] then fieldsAux rest [] else acc.reverse :: fieldsAux rest []
    else fieldsAux rest (c :: acc)

/-- `strings.Fields` on a character list. -/
def goFields (l : List Char) : List (List Char) := fieldsAux l []

/-- `toTitleCase` from `player.go`: first letter of each whitespace-separated
word upper-cased, the rest of the word lower-cased, words joined by single
spaces (ASCII fragment of Go's case mapping). -/
def toTitleCase (s : String) : String :=
  ⟨List.intercalate [' ']
    ((goFields s.data).map fun w =>
      match w with
      | [] => []
      | c :: rest => upperChar c :: rest.map lowerChar)⟩

/-- `strings.Split` by a single separator character: empty fields are kept,
and splitting the empty string yields one empty field, as in Go. -/
def splitOnCharAux (sep : Char) : List Char → List Char → List (List Char)
  | [], acc => [acc.reverse]
  | c :: rest, acc =>
    if c = sep then acc.reverse :: splitOnCharAux sep rest []
    else splitOnCharAux sep rest (c :: acc)

/-- `strings.Split` on a character list (single-character separator). -/
def splitOnChar (sep : Char) (l : List Char) : List (List Char) :=
  splitOnCharAux sep l []

/-! ## SHA-256 (Go's `crypto/sha256`) over `Nat` with explicit `% 2^32`

`generateKey` in `cache.go` hashes `lower(artist) + "|" + lower(title)`
with SHA-256 and keeps the first 12 bytes, hex encoded.  The hash is
implemented here from the FIPS 180-4 specification; all words are `Nat`s
kept below `2 ^ 32`. -/

/-- Reduce to a 32-bit word. -/
def w32 (n : Nat) : Nat := n % 4294967296

/-- 32-bit rotate right. -/
def rotr (x n : Nat) : Nat := w32 ((x >>> n) ||| (x <<< (32 - n)))

/-- 32-bit complement (on inputs below `2 ^ 32`). -/
def not32 (x : Nat) : Nat := x ^^^ 4294967295

def bigSigma0 (x : Nat) : Nat := rotr x 2 ^^^ rotr x 13 ^^^ rotr x 22
def bigSigma1 (x : Nat) : Nat := rotr x 6 ^^^ rotr x 11 ^^^ rotr x 25
def smallSigma0 (x : Nat) : Nat := rotr x 7 ^^^ rotr x 18 ^^^ (x >>> 3)
def smallSigma1 (x : Nat) : Nat := rotr x 17 ^^^ rotr x 19 ^^^ (x >>> 10)

/-- The SHA-256 round constants: fractional parts of the cube roots of the
first 64 primes. -/
def shaK : List Nat :=
  [1116352408, 1899447441, 3049323471, 3921009573, 961987163,
   1508970993, 2453635748, 2870763221, 3624381080, 310598401,
   607225278, 1426881987, 1925078388, 2162078206, 2614888103,
   3248222580, 3835390401, 4022224774, 264347078, 604807628,
   770255983, 1249150122, 1555081692, 1996064986, 2554220882,
   2821834349, 2952996808, 3210313671, 3336571891, 3584528711,
   113926993, 338241895, 666307205, 773529912, 1294757372,
   1396182291, 1695183700, 1986661051, 2177026350, 2456956037,
   2730485921, 2820302411, 3259730800, 3345764771, 3516065817,
   3600352804, 4094571909, 275423344, 430227734, 506948616,
   659060556, 883997877, 958139571, 1322822218, 1537002063,
   1747873779, 1955562222, 2024104815, 2227730452, 2361852424,
   2428436474, 2756734187, 3204031479, 3329325298]

/-- The eight working state words of the compression function. -/
structure Hash8 where
  a : Nat
  b : Nat
  c : Nat
  d : Nat
  e : Nat
  f : Nat
  g : Nat
  h : Nat

/-- Initial hash value: fractional parts of the square roots of the first
eight primes. -/
def shaInit : Hash8 :=
  ⟨1779033703, 3144134277, 1013904242,
   2773480762, 1359893119, 2600822924,
   528734635, 1541459225⟩

/-- One round of the SHA-256 compression function. -/
def shaRound (s : Hash8) (kw : Nat) : Hash8 :=
  let S1 := bigSigma1 s.e
  let ch := (s.e &&& s.f) ^^^ (not32 s.e &&& s.g)
  let t1 := w32 (s.h + S1 + ch + kw)
  let S0 := bigSigma0 s.a
  let maj := (s.a &&& s.b) ^^^ (s.a &&& s.c) ^^^ (s.b &&& s.c)
  let t2 := w32 (S0 + maj)
  ⟨w32 (t1 + t2), s.a, s.b, s.c, w32 (s.d + t1), s.e, s.f, s.g⟩

/-- Extend a 16-word block to the 64-word message schedule, appending
`n` further words. -/
def extendSchedule : Nat → List Nat → List Nat
  | 0, ws => ws
  | n + 1, ws =>
    let i := ws.length
    let nw := w32 (ws.getD (i - 16) 0 + smallSigma0 (ws.getD (i - 15) 0) +
                   ws.getD (i - 7) 0 + smallSigma1 (ws.getD (i - 2) 0))
    extendSchedule n (ws ++ [nw])

/-- Big-endian bytes of `n`, `k` bytes wide (most significant first). -/
def bytesBE : Nat → Nat → List Nat
  | 0, _ => []
  | k + 1, n => bytesBE k (n / 256) ++ [n % 256]

/-- Group a byte list into big-endian 32-bit words. -/
def toWords : List Nat → List Nat
  | b0 :: b1 :: b2 :: b3 :: rest =>
    (b0 * 16777216 + b1 * 65536 + b2 * 256 + b3) :: toWords rest
  | _ => []

/-- Compress one 64-byte block into the running hash value. -/
def shaCompress (h : Hash8) (block : List Nat) : Hash8 :=
  let ws := extendSchedule 48 (toWords block)
  let s := (List.zipWith (· + ·) shaK ws).foldl shaRound h
  ⟨w32 (h.a + s.a), w32 (h.b + s.b), w32 (h.c + s.c), w32 (h.d + s.d),
   w32 (h.e + s.e), w32 (h.f + s.f), w32 (h.g + s.g), w32 (h.h + s.h)⟩

/-- SHA-256 padding: `0x80`, zeros until the length is 56 mod 64, then
the bit length as a 64-bit big-endian integer.  The zero count
`(55 - len) mod 64` is written `(119 - len % 64) % 64` so the
subtraction cannot truncate for messages of 56 bytes or more. -/
def shaPad (msg : List Nat) : List Nat :=
  msg ++ 128 :: List.replicate ((119 - msg.length % 64) % 64) 0 ++ bytesBE 8 (8 * msg.length)

/-- Split a byte list into 64-byte blocks (fuelled, structural). -/
def chunk64 : Nat → List Nat → List (List Nat)
  | 0, _ => []
  | _, [] => []
  | fuel + 1, l => l.take 64 :: chunk64 fuel (l.drop 64)

/-- SHA-256 of a byte list: the 32-byte digest. -/
def sha256 (msg : List Nat) : List Nat :=
  let padded := shaPad msg
  let fin := (chunk64 padded.length padded).foldl shaCompress shaInit
  [fin.a, fin.b, fin.c, fin.d, fin.e, fin.f, fin.g, fin.h].flatMap (bytesBE 4)

/-- Lower-case hex digit for a nibble, as Go's `encoding/hex` produces. -/
def hexDigitChar (n : Nat) : Char :=
  if n < 10 then Char.ofNat (48 + n) else Char.ofNat (87 + n)

/-- `hex.EncodeToString`: two lower-case hex digits per byte. -/
def hexEncode (bytes : List Nat) : List Char :=
  bytes.flatMap fun b => [hexDigitChar (b / 16), hexDigitChar (b % 16)]

/-- UTF-8 encoding of one code point. -/
def utf8Char (n : Nat) : List Nat :=
  if n < 128 then [n]
  else if n < 2048 then [192 + n / 64, 128 + n % 64]
  else if n < 65536 then [224 + n / 4096, 128 + n / 64 % 64, 128 + n % 64]
  else [240 + n / 262144, 128 + n / 4096 % 64, 128 + n / 64 % 64, 128 + n % 64]

/-- The bytes of a Go string: UTF-8 as produced by `[]byte(s)`. -/
def strBytes (s : String) : List Nat := s.data.flatMap fun c => utf8Char c.toNat

/-- `generateKey` from `cache.go`: the first 12 bytes of
`sha256(lower(artist) + "|" + lower(title))`, hex encoded. -/
def generateKey (artist title : String) : String :=
  ⟨hexEncode ((sha256 (strBytes (goToLower artist ++ "|" ++ goToLower title))).take 12)⟩

/-! ## The disk cache (`internal/cache/cache.go`) -/

/-- `cacheVersion` from `cache.go`. -/
def cacheVersion : Nat := 1

/-- The fixed TTL in seconds: `defaultTTLDays*24*60*60` with
`defaultTTLDays = 30`. -/
def ttlSeconds : Int := 30 * 24 * 60 * 60

/-- `LyricEntry` from `cache.go`.  `float64` fields are modelled as `ℚ`,
epoch timestamps as `Int`. -/
structure LyricEntry where
  Version : Nat
  TrackName : String
  ArtistName : String
  AlbumName : String
  Duration : ℚ
  Instrumental : Bool
  PlainLyrics : String
  SyncedLyrics : String
  SyncOffset : ℚ
  CreatedAt : Int
  ExpiresAt : Int
  deriving DecidableEq

/-- One persisted cache file as the decoder sees it: either a record that
gob-decodes to a `LyricEntry`, or bytes that fail to decode. -/
inductive DiskFile where
  | good (e : LyricEntry)
  | corrupt
  deriving DecidableEq

/-- `CacheMiss`, `CacheExpired`, `CacheCorrupt` from `cache.go`;
`invalid` stands for the `errors.New` values returned on bad arguments,
`ioFailure` for a failed disk write. -/
inductive CacheErr where
  | miss
  | expired
  | corrupt
  | invalid
  | ioFailure
  deriving DecidableEq

/-- The `DiskCache` state: the memory tier (`memCache`), the file tier
keyed by cache key, and whether a backing directory exists
(`basePath != ""`; degraded mode when false). -/
structure Cache where
  mem : String → Option LyricEntry
  disk : String → Option DiskFile
  hasDisk : Bool

/-- The all-empty cache with a working backing directory. -/
def emptyCache : Cache := ⟨fun _ => none, fun _ => none, true⟩

/-- `readFromDisk` from `cache.go` at one key: a missing file is a miss,
a file that fails to decode is corrupt (left in place), a decoded entry
with the wrong version tag is corrupt and the file is removed. -/
def readFromDisk (c : Cache) (key : String) : Except CacheErr LyricEntry × Cache :=
  match c.disk key with
  | none => (.error .miss, c)
  | some .corrupt => (.error .corrupt, c)
  | some (.good e) =>
    if e.Version ≠ cacheVersion then
      (.error .corrupt, { c with disk := fun k => if k = key then none else c.disk k })
    else (.ok e, c)

/-- The disk-tier phase of `Get` (`cache.go` lines 135–157): degraded mode
is a miss; a decoded entry that is expired has its file deleted and
reports cache-expired; otherwise the entry is promoted into the memory
tier and returned. -/
def getDiskTier (c : Cache) (key : String) (now : Int) : Except CacheErr LyricEntry × Cache :=
  if c.hasDisk = false then (.error .miss, c)
  else
    match readFromDisk c key with
    | (.error e, c') => (.error e, c')
    | (.ok entry, c') =>
      if entry.ExpiresAt ≤ now then
        (.error .expired, { c' with disk := fun k => if k = key then none else c'.disk k })
      else
        (.ok entry, { c' with mem := fun k => if k = key then some entry else c'.mem k })

/-- `Get` from `cache.go`: miss on empty input; memory tier first (an
expired memory entry is evicted and the disk tier consulted); then the
disk tier. -/
def cacheGet (c : Cache) (artist title : String) (now : Int) :
    Except CacheErr LyricEntry × Cache :=
  if artist = "" ∨ title = "" then (.error .miss, c)
  else
    let key := generateKey artist title
    match c.mem key with
    | some entry =>
      if entry.ExpiresAt > now then (.ok entry, c)
      else getDiskTier { c with mem := fun k => if k = key then none else c.mem k } key now
    | none => getDiskTier c key now

/-- `Set` from `cache.go`: rejects empty artist/title and a nil entry;
stamps `Version`, `CreatedAt = now`, `ExpiresAt = now + TTL`; writes the
memory tier unconditionally; then persists to the file tier (an atomic
temp-file-and-rename write, whose possible failure is the `diskWriteOk`
parameter — on failure the file tier is unchanged). -/
def cacheSet (c : Cache) (artist title : String) (entry : Option LyricEntry)
    (now : Int) (diskWriteOk : Bool) : Except CacheErr Unit × Cache :=
  if artist = "" ∨ title = "" ∨ entry = none then (.error .invalid, c)
  else
    match entry with
    | none => (.error .invalid, c)
    | some e =>
      let key := generateKey artist title
      let stamped : LyricEntry :=
        { e with Version := cacheVersion, CreatedAt := now, ExpiresAt := now + ttlSeconds }
      let c1 : Cache := { c with mem := fun k => if k = key then some stamped else c.mem k }
      if c1.hasDisk = false then (.ok (), c1)
      else if diskWriteOk then
        (.ok (), { c1 with disk := fun k => if k = key then some (.good stamped) else c1.disk k })
      else (.error .ioFailure, c1)

/-! ## Player state and the seek heuristic (`internal/player/player.go`) -/

/-- The seek-relevant part of `player.State`: the last observed position
and the wall-clock time it was observed at.  Go's zero `time.Time`
(`IsZero`) is modelled as `none`. -/
structure PState where
  lastPositionUpdate : Option Int
  lastPositionSecs : Int

/-- The state a fresh `NewService` starts from (`&State{}`): zero
timestamp, zero position. -/
def newServiceState : PState := ⟨none, 0⟩

/-- `DetectSeek` from `player.go`, with the current wall-clock time as an
explicit parameter: no baseline means no seek; otherwise a seek is a new
position deviating from `lastPositionSecs + elapsed` by more than 3
seconds (time carried at whole-second granularity, matching the
`int64(elapsed.Seconds())` truncation at integral elapsed times). -/
def DetectSeek (s : PState) (now : Int) (newPosition : Int) : Bool :=
  match s.lastPositionUpdate with
  | none => false
  | some t0 =>
    let elapsed := now - t0
    let expectedPos := s.lastPositionSecs + elapsed
    let diff := newPosition - expectedPos
    (if diff < 0 then -diff else diff) > 3

/-! ## The lyrics resolver (`player.go`, `lyrics` package) -/

/-- `TrackParams` from `player.go`. -/
structure TrackParams where
  Title : String
  Artist : String
  Album : String
  DurationSecs : Int
  deriving DecidableEq

/-- One search strategy: the anonymous
`struct { artist, title, album string; duration int64 }` of `Fetch`. -/
structure Strategy where
  artist : String
  title : String
  album : String
  duration : Int
  deriving DecidableEq

/-- Decimal digits of `n`, least significant first, fuelled so the
definition is structural (`n` itself is enough fuel). -/
def natDigitsRevFuel : Nat → Nat → List Nat
  | 0, _ => []
  | _ + 1, 0 => []
  | fuel + 1, n + 1 => ((n + 1) % 10) :: natDigitsRevFuel fuel ((n + 1) / 10)

/-- Decimal rendering of a `Nat`, as `fmt.Sprintf("%d", ·)` produces. -/
def natToDecimal (n : Nat) : List Char :=
  if n = 0 then ['0']
  else ((natDigitsRevFuel n n).reverse).map fun d => Char.ofNat (48 + d)

/-- Decimal rendering of an `Int`, as `fmt.Sprintf("%d", ·)` produces. -/
def intToDecimal (i : Int) : List Char :=
  if i < 0 then '-' :: natToDecimal i.natAbs else natToDecimal i.toNat

/-- The deduplication key of a strategy:
`fmt.Sprintf("%s|%s|%s|%d", artist, title, album, duration)`. -/
def strategyKey (s : Strategy) : String :=
  s.artist ++ "|" ++ s.title ++ "|" ++ s.album ++ "|" ++ ⟨intToDecimal s.duration⟩

/-- The `searchStrategies` literal of `Fetch`, in source order: normalized
with album and duration; normalized with duration only; normalized bare;
qualifier-stripped bare; upper-cased; lower-cased; title-cased; the
original input as last resort. -/
def strategies8 (q : TrackParams) : List Strategy :=
  let nA := normalizeString q.Artist
  let nT := normalizeString q.Title
  let sA := stripVersionInfo q.Artist
  let sT := stripVersionInfo q.Title
  [⟨nA, nT, q.Album, q.DurationSecs⟩,
   ⟨nA, nT, "", q.DurationSecs⟩,
   ⟨nA, nT, "", 0⟩,
   ⟨sA, sT, "", 0⟩,
   ⟨goToUpper nA, goToUpper nT, "", 0⟩,
   ⟨goToLower nA, goToLower nT, "", 0⟩,
   ⟨toTitleCase nA, toTitleCase nT, "", 0⟩,
   ⟨q.Artist, q.Title, "", 0⟩]

/-- The deduplication loop of `Fetch`: strategies with an empty artist or
title are skipped, and a strategy whose key string was already seen is
dropped. -/
def dedupStrategiesAux (seen : List String) : List Strategy → List Strategy
  | [] => []
  | s :: rest =>
    if s.artist = "" ∨ s.title = "" then dedupStrategiesAux seen rest
    else if strategyKey s ∈ seen then dedupStrategiesAux seen rest
    else s :: dedupStrategiesAux (strategyKey s :: seen) rest

/-- `uniqueStrategies` as computed by `Fetch`. -/
def uniqueStrategies (q : TrackParams) : List Strategy :=
  dedupStrategiesAux [] (strategies8 q)

/-- `url.Values.Set`: replace the value under a key, or add it. -/
def setParam (ps : List (String × String)) (k v : String) : List (String × String) :=
  if ps.any (fun p => p.1 = k) then ps.map fun p => if p.1 = k then (k, v) else p
  else ps ++ [(k, v)]

/-- The query parameters `Fetch` sets for one strategy, applied to the
query state `ps` left in `parsedURL` by the previous iteration:
`artist_name` and `track_name` are always (re)set, `album_name` only when
the strategy has an album, `duration` only when it is positive — earlier
values of the latter two are never removed. -/
def applyStrategyParams (ps : List (String × String)) (s : Strategy) :
    List (String × String) :=
  let ps1 := setParam ps "artist_name" s.artist
  let ps2 := setParam ps1 "track_name" s.title
  let ps3 := if s.album ≠ "" then setParam ps2 "album_name" s.album else ps2
  if s.duration > 0 then setParam ps3 "duration" ⟨intToDecimal s.duration⟩ else ps3

/-- The successive query-parameter snapshots of the candidate loop when
every candidate is attempted, threading the mutable `parsedURL` query
state from one iteration to the next exactly as `Fetch` does. -/
def issuedQueriesAux (ps : List (String × String)) :
    List Strategy → List (List (String × String))
  | [] => []
  | s :: rest =>
    let ps' := applyStrategyParams ps s
    ps' :: issuedQueriesAux ps' rest

/-- The query-parameter lists `Fetch` would issue for a query whose every
candidate is attempted (base URL with no query of its own). -/
def issuedQueries (q : TrackParams) : List (List (String × String)) :=
  issuedQueriesAux [] (uniqueStrategies q)

/-- Containment of a contiguous character run (`strings.Contains`). -/
def startsWithList : List Char → List Char → Bool
  | _, [] => true
  | [], _ :: _ => false
  | c :: rest, d :: dr => c = d && startsWithList rest dr

/-- `strings.Contains` on character lists. -/
def containsSub (hay sub : List Char) : Bool :=
  match hay with
  | [] => startsWithList [] sub
  | _ :: rest => startsWithList hay sub || containsSub rest sub

/-- A transport-level error from `doFetchRequest`: whether it wraps
`context.DeadlineExceeded`, plus its rendered message. -/
structure RemoteErr where
  deadlineExceeded : Bool
  msg : String
  deriving DecidableEq

/-- `isTimeoutError` from `player.go`. -/
def isTimeoutError (e : RemoteErr) : Bool :=
  e.deadlineExceeded || containsSub e.msg.data "timeout".data ||
    containsSub e.msg.data "deadline exceeded".data ||
    containsSub e.msg.data "i/o timeout".data

/-- `LrclibResponse` from `player.go` (`float64` as `ℚ`). -/
structure LrclibResponse where
  TrackName : String
  ArtistName : String
  AlbumName : String
  Duration : ℚ
  Instrumental : Bool
  PlainLyrics : String
  SyncedLyrics : String
  SyncOffset : ℚ
  deriving DecidableEq

/-- "No lyrics in response" is also recorded as the last error between
candidates; other failures carry the transport error. -/
inductive LoopErr where
  | noLyrics
  | transport (e : RemoteErr)
  deriving DecidableEq

/-- Outcome of the candidate loop. -/
inductive LoopResult where
  | success (p : LrclibResponse)
  | timeout
  | exhausted (last : Option LoopErr)
  deriving DecidableEq

/-- A response with no plain lyrics, no synced lyrics and no instrumental
flag is "no match". -/
def emptyPayload (p : LrclibResponse) : Bool :=
  p.PlainLyrics = "" && p.SyncedLyrics = "" && !p.Instrumental

/-- The candidate loop of `Fetch`, with the remote service as an explicit
oracle; returns the outcome and the list of candidates actually issued.
An empty response records "no lyrics" and continues; a contentful
response is accepted immediately; a timeout aborts the whole loop; any
other failure is recorded as the last error and the loop proceeds.
(The 100 ms inter-candidate delay and caller cancellation are real-time
behaviour outside this model.) -/
def fetchLoop (remote : Strategy → Except RemoteErr LrclibResponse) :
    List Strategy → Option LoopErr → LoopResult × List Strategy
  | [], last => (.exhausted last, [])
  | s :: rest, _ =>
    match remote s with
    | .ok p =>
      if emptyPayload p then
        let r := fetchLoop remote rest (some .noLyrics)
        (r.1, s :: r.2)
      else (.success p, [s])
    | .error e =>
      if isTimeoutError e then (.timeout, [s])
      else
        let r := fetchLoop remote rest (some (.transport e))
        (r.1, s :: r.2)

/-- Errors `Fetch` can return: validation (empty/nil input), the fatal
"lyrics server took too long to respond", or exhaustion
("no lyrics found for artist - title", wrapping the last error). -/
inductive FetchErr where
  | validation
  | tooSlow
  | notFound (artist title : String) (last : Option LoopErr)
  deriving DecidableEq

/-- The `cache.LyricEntry` literal `Fetch` persists on success: payload
fields copied, stamp fields left zero for `Set` to fill. -/
def entryOfPayload (p : LrclibResponse) : LyricEntry :=
  ⟨0, p.TrackName, p.ArtistName, p.AlbumName, p.Duration, p.Instrumental,
   p.PlainLyrics, p.SyncedLyrics, p.SyncOffset, 0, 0⟩

/-- The `LrclibResponse` literal `Fetch` builds from a cache hit. -/
def respOfEntry (e : LyricEntry) : LrclibResponse :=
  ⟨e.TrackName, e.ArtistName, e.AlbumName, e.Duration, e.Instrumental,
   e.PlainLyrics, e.SyncedLyrics, e.SyncOffset⟩

/-- What `Fetch` produces: its return value, the candidates it issued
requests for, and the cache state it leaves behind. -/
structure FetchOut where
  result : Except FetchErr LrclibResponse
  requests : List Strategy
  cacheAfter : Cache

/-- `Fetch` from `player.go`: validation, cache-first under the original
artist/title, then the candidate loop; an accepted payload is persisted
under the original artist/title (the write's error is discarded) and
returned. -/
def Fetch (c : Cache) (remote : Strategy → Except RemoteErr LrclibResponse)
    (q : TrackParams) (now : Int) (diskWriteOk : Bool) : FetchOut :=
  if q.Title = "" ∨ q.Artist = "" then ⟨.error .validation, [], c⟩
  else if normalizeString q.Title = "" ∨ normalizeString q.Artist = "" then
    ⟨.error .validation, [], c⟩
  else
    match cacheGet c q.Artist q.Title now with
    | (.ok cached, c') => ⟨.ok (respOfEntry cached), [], c'⟩
    | (.error _, c') =>
      match fetchLoop remote (uniqueStrategies q) none with
      | (.success p, reqs) =>
        ⟨.ok p, reqs, (cacheSet c' q.Artist q.Title (some (entryOfPayload p)) now diskWriteOk).2⟩
      | (.timeout, reqs) => ⟨.error .tooSlow, reqs, c'⟩
      | (.exhausted last, reqs) => ⟨.error (.notFound q.Artist q.Title last), reqs, c'⟩

/-! ## Synced-lyric parsing (`player.go`) -/

/-- `TimedLine` from `player.go` (`float64` time as `ℚ`). -/
structure TimedLine where
  TimeSeconds : ℚ
  Text : String
  deriving DecidableEq

/-- `splitLrcLine` from `player.go`: the line must start with `[`, the
first `]` must come after at least one time character, and the trimmed
text after it must be non-empty. -/
def splitLrcLine (line : List Char) : Option (List Char × List Char) :=
  if line.head? ≠ some '[' then none
  else
    match line.findIdx? (· = ']') with
    | none => none
    | some endIndex =>
      if endIndex ≤ 1 then none
      else
        let timePart := (line.drop 1).take (endIndex - 1)
        let textPart := trimChars (line.drop (endIndex + 1))
        if textPart = [] then none else some (timePart, textPart)

/-- A non-empty all-digit run as a natural number. -/
def parseDigits (l : List Char) : Option Nat :=
  if l = [] then none
  else if l.all (fun c => 48 ≤ c.toNat ∧ c.toNat ≤ 57) then
    some (l.foldl (fun acc c => acc * 10 + (c.toNat - 48)) 0)
  else none

/-- `parseFloatSafe` from `player.go`: trim, then `strconv.ParseFloat`.
Modelled on plain decimal literals `[+|-] digits [. digits]` (with at
least one digit), which is the fragment lyric timestamps use; the exotic
`ParseFloat` forms (exponents, hex floats, infinities) are out of scope. -/
def parseFloatSafe (s : List Char) : Option ℚ :=
  let t := trimChars s
  let (neg, body) :=
    match t with
    | '-' :: rest => (true, rest)
    | '+' :: rest => (false, rest)
    | _ => (false, t)
  let signed : ℚ → ℚ := fun v => if neg then -v else v
  match splitOnChar '.' body with
  | [ip] => (parseDigits ip).map fun n => signed n
  | [ip, fp] =>
    if ip = [] then
      (parseDigits fp).map fun f => signed ((f : ℚ) / (10 : ℚ) ^ fp.length)
    else if fp = [] then (parseDigits ip).map fun n => signed n
    else
      match parseDigits ip, parseDigits fp with
      | some n, some f => some (signed ((n : ℚ) + (f : ℚ) / (10 : ℚ) ^ fp.length))
      | _, _ => none
  | _ => none

/-- `parseLrcTimeToSeconds` from `player.go`: `[hh:]mm:ss[.frac]`,
2 or 3 colon-separated parts, each a float; negative totals rejected. -/
def parseLrcTimeToSeconds (raw : List Char) : Option ℚ :=
  if raw = [] then none
  else
    match splitOnChar ':' raw with
    | [m, s] => do
      let mv ← parseFloatSafe m
      let sv ← parseFloatSafe s
      let total := mv * 60 + sv
      if total < 0 then none else some total
    | [h, m, s] => do
      let hv ← parseFloatSafe h
      let mv ← parseFloatSafe m
      let sv ← parseFloatSafe s
      let total := hv * 3600 + mv * 60 + sv
      if total < 0 then none else some total
    | _ => none

/-- `ParseSynced` from `player.go`: split on newlines, trim each line,
skip blank lines, lines without a bracketed time or without text, and
lines whose time fails to parse; keep source order. -/
def ParseSynced (raw : String) : List TimedLine :=
  if raw = "" then []
  else
    (splitOnChar '\n' raw.data).filterMap fun line =>
      let trimmed := trimChars line
      if trimmed = [] then none
      else
        match splitLrcLine trimmed with
        | none => none
        | some (timePart, textPart) =>
          match parseLrcTimeToSeconds timePart with
          | none => none
          | some secs => some ⟨secs, ⟨textPart⟩⟩

/-- The loop of `FindCurrentLineIndex`: remember the index of each line
whose timestamp is ≤ the position, stop at the first one beyond it. -/
def findCurrentAux (pos : ℚ) : List TimedLine → Int → Int → Int
  | [], _, index => index
  | l :: rest, i, index =>
    if l.TimeSeconds ≤ pos then findCurrentAux pos rest (i + 1) i else index

/-- `FindCurrentLineIndex` from `player.go`. -/
def FindCurrentLineIndex (lines : List TimedLine) (pos : ℚ) : Int :=
  if lines = [] then -1 else findCurrentAux pos lines 0 (-1)

/-- Concrete sample entry used by the witnesses. -/
def sampleEntry : LyricEntry :=
  ⟨7, "Track", "Artist", "Album", 200, false, "la la", "[00:01.00]la", 0, 1, 2⟩

/-- Concrete track query used by the witnesses. -/
def sampleQuery : TrackParams := ⟨"b", "a", "", 0⟩

/-- The entry `Set` actually stores: the caller's entry with the stamp
fields replaced. -/
def stampedOf (e : LyricEntry) (now : Int) : LyricEntry :=
  { e with Version := cacheVersion, CreatedAt := now, ExpiresAt := now + ttlSeconds }

/-- A version-1 entry that expired at epoch second 2, for the witnesses. -/
def expiredEntry : LyricEntry :=
  ⟨1, "Track", "Artist", "Album", 200, false, "la la", "[00:01.00]la", 0, 1, 2⟩

/-- A cache whose file tier holds `expiredEntry` under every key. -/
def expiredDiskCache : Cache := ⟨fun _ => none, fun _ => some (.good expiredEntry), true⟩

/-- A remote stub that always times out. -/
def timeoutStub : Strategy → Except RemoteErr LrclibResponse :=
  fun _ => .error ⟨true, "context deadline exceeded"⟩

/-- A candidate attempt that lets the loop continue: a non-timeout
transport failure, or a response with no lyric content. -/
def softFail (remote : Strategy → Except RemoteErr LrclibResponse) (s : Strategy) : Prop :=
  (∃ e, remote s = .error e ∧ isTimeoutError e = false) ∨
  (∃ p, remote s = .ok p ∧ emptyPayload p = true)

/-- A remote stub that accepts every candidate with a fixed payload. -/
def samplePayload : LrclibResponse := ⟨"T", "A", "Al", 200, false, "some lyrics", "", 0⟩

/-- A remote stub returning `samplePayload` for every candidate. -/
def acceptStub : Strategy → Except RemoteErr LrclibResponse := fun _ => .ok samplePayload

/-- The lines are in chronological order (as the source assumes). -/
def Chronological (lines : List TimedLine) : Prop :=
  lines.Pairwise fun a b => a.TimeSeconds ≤ b.TimeSeconds

/-- `r` is the index of the last line whose timestamp is at most `pos`,
or `-1` when the position precedes every timestamp. -/
def IsLastLE (lines : List TimedLine) (pos : ℚ) (r : Int) : Prop :=
  (r = -1 ∧ ∀ l ∈ lines, pos < l.TimeSeconds) ∨
  (∃ k : Nat, ∃ hk : k < lines.length, r = (k : Int) ∧
    (lines.get ⟨k, hk⟩).TimeSeconds ≤ pos ∧
    ∀ j : Nat, ∀ hj : j < lines.length, k < j →
      pos < (lines.get ⟨j, hj⟩).TimeSeconds)

example : normalizeString "  a   b " = "a b" := by decide
example : stripVersionInfo "song (live) [remix]" = "song" := by decide
example : toTitleCase "hELLo woRLD" = "Hello World" := by decide
example : splitOnChar ':' "00:01.50".data = ["00".data, "01.50".data] := by decide

example :
    ParseSynced "[00:01.50]Hello\n[00:03.00]World" =
      [⟨3 / 2, "Hello"⟩, ⟨3, "World"⟩] := by with_unfolding_all decide
example :
    FindCurrentLineIndex [⟨3 / 2, "Hello"⟩, ⟨3, "World"⟩] 2 = 0 := by
  with_unfolding_all decide
example :
    FindCurrentLineIndex [⟨3 / 2, "Hello"⟩, ⟨3, "World"⟩] (1 / 2) = -1 := by
  with_unfolding_all decide
example :
    FindCurrentLineIndex [⟨3 / 2, "Hello"⟩, ⟨3, "World"⟩] 10 = 1 := by
  with_unfolding_all decide

/-! ## Shared helper lemmas -/

/-- `Set`'s effect on the memory tier: the stamped entry is stored under
the generated key, everything else untouched, in all disk branches. -/
theorem cacheSet_mem (c : Cache) (artist title : String) (e : LyricEntry)
    (now : Int) (dw : Bool) (h1 : artist ≠ "") (h2 : title ≠ "") :
    ((cacheSet c artist title (some e) now dw).2).mem = fun k =>
      if k = generateKey artist title then
        some { e with Version := cacheVersion, CreatedAt := now,
                      ExpiresAt := now + ttlSeconds }
      else c.mem k := by
  simp only [cacheSet, h1, h2, false_or, or_false, if_false, reduceCtorEq, or_self]
  split
  · rfl
  · split <;> rfl

/-! ## Claim theorems -/

/-- C7: with a recorded baseline `(p0, t0)`, a poll at time `t0 + d`
reading actual position `a` is classified as a seek if and only if
`|a - (p0 + d)| > 3`; in particular, with `p0 = 10` and `d = 5`, a
reading of 16 is not a seek and a reading of 25 is. -/
theorem C7_seek_heuristic :
    (∀ (p0 t0 d a : Int),
        DetectSeek ⟨some t0, p0⟩ (t0 + d) a = true ↔ 3 < |a - (p0 + d)|) ∧
    DetectSeek ⟨some 0, 10⟩ 5 16 = false ∧
    DetectSeek ⟨some 0, 10⟩ 5 25 = true := by
  refine ⟨fun p0 t0 d a => ?_, by decide, by decide⟩
  simp only [DetectSeek, decide_eq_true_eq, Int.abs_eq_natAbs]
  split <;> omega

/-- C10: when no position observation has been recorded (the wall-clock
baseline is the zero value, as in the state `NewService` constructs),
`DetectSeek` is false for every new position. -/
theorem C10_no_baseline_no_seek :
    (∀ (s : PState), s.lastPositionUpdate = none →
        ∀ (now pos : Int), DetectSeek s now pos = false) ∧
    newServiceState.lastPositionUpdate = none := by
  refine ⟨fun s h now pos => ?_, rfl⟩
  unfold DetectSeek
  rw [h]

/-- Witness for C10 at a concrete state and position. -/
theorem C10_witness : DetectSeek ⟨none, 42⟩ 100 7 = false :=
  C10_no_baseline_no_seek.1 ⟨none, 42⟩ rfl 100 7

/-- `Get` on a fresh (unexpired) memory-tier hit returns the entry and
leaves the cache unchanged. -/
theorem cacheGet_mem_hit (c : Cache) (artist title : String) (entry : LyricEntry)
    (now : Int) (h1 : artist ≠ "") (h2 : title ≠ "")
    (hmem : c.mem (generateKey artist title) = some entry)
    (hexp : entry.ExpiresAt > now) :
    cacheGet c artist title now = (.ok entry, c) := by
  simp [cacheGet, h1, h2, hmem, hexp]

/-- C5: every entry stored by `Set` — whatever field values the caller
supplied — is stamped with `CreatedAt = now`,
`ExpiresAt = CreatedAt + 2592000` and the current schema version, in the
memory tier and (when the disk write happens) identically on disk. -/
theorem C5_ttl_version_stamping :
    ∀ (c : Cache) (artist title : String) (e : LyricEntry) (now : Int) (dw : Bool),
      artist ≠ "" → title ≠ "" →
      ∃ st : LyricEntry,
        ((cacheSet c artist title (some e) now dw).2).mem (generateKey artist title) =
            some st ∧
        st.ExpiresAt = st.CreatedAt + 2592000 ∧
        st.CreatedAt = now ∧
        st.Version = cacheVersion ∧
        (dw = true → c.hasDisk = true →
          ((cacheSet c artist title (some e) now dw).2).disk (generateKey artist title) =
            some (.good st)) := by
  intro c artist title e now dw h1 h2
  refine ⟨stampedOf e now, ?_, by norm_num [stampedOf, ttlSeconds], rfl, rfl, ?_⟩
  · rw [cacheSet_mem c artist title e now dw h1 h2]
    simp [stampedOf]
  · intro hdw hdisk
    simp only [cacheSet, h1, h2, false_or, or_false, if_false, reduceCtorEq, or_self,
      hdisk, hdw]
    simp [stampedOf]

/-- Witness for C5 at a concrete cache, entry and time. -/
theorem C5_witness :
    ("a" : String) ≠ "" ∧ ("b" : String) ≠ "" ∧
    ∃ st : LyricEntry,
      ((cacheSet emptyCache "a" "b" (some sampleEntry) 1000 true).2).mem
          (generateKey "a" "b") = some st ∧
      st.ExpiresAt = st.CreatedAt + 2592000 ∧
      st.CreatedAt = 1000 ∧
      st.Version = cacheVersion ∧
      (true = true → emptyCache.hasDisk = true →
        ((cacheSet emptyCache "a" "b" (some sampleEntry) 1000 true).2).disk
            (generateKey "a" "b") = some (.good st)) :=
  ⟨by decide, by decide,
   C5_ttl_version_stamping emptyCache "a" "b" sampleEntry 1000 true
     (by decide) (by decide)⟩

/-- C1: `Set(artist, title, e)` followed immediately by
`Get(artist, title)` succeeds and returns `e` with only `Version`,
`CreatedAt` and `ExpiresAt` replaced by the freshly stamped values. -/
theorem C1_cache_roundtrip :
    ∀ (c : Cache) (artist title : String) (e : LyricEntry) (now : Int) (dw : Bool),
      artist ≠ "" → title ≠ "" →
      (cacheGet (cacheSet c artist title (some e) now dw).2 artist title now).1 =
        .ok { e with Version := cacheVersion, CreatedAt := now,
                     ExpiresAt := now + 2592000 } := by
  intro c artist title e now dw h1 h2
  have httl : ttlSeconds = 2592000 := by norm_num [ttlSeconds]
  have hmem : ((cacheSet c artist title (some e) now dw).2).mem
      (generateKey artist title) = some (stampedOf e now) := by
    rw [cacheSet_mem c artist title e now dw h1 h2]
    simp [stampedOf]
  rw [cacheGet_mem_hit _ artist title (stampedOf e now) now h1 h2 hmem
      (by simp [stampedOf, httl])]
  simp [stampedOf, httl]

/-- Witness for C1 at a concrete cache, entry and time. -/
theorem C1_witness :
    ("a" : String) ≠ "" ∧ ("b" : String) ≠ "" ∧
    (cacheGet (cacheSet emptyCache "a" "b" (some sampleEntry) 1000 true).2
        "a" "b" 1000).1 =
      .ok { sampleEntry with Version := cacheVersion, CreatedAt := 1000,
                             ExpiresAt := 1000 + 2592000 } :=
  ⟨by decide, by decide,
   C1_cache_roundtrip emptyCache "a" "b" sampleEntry 1000 true (by decide) (by decide)⟩

/-- If the disk-tier phase of `Get` returns an entry, that entry's
expiry is in the future. -/
theorem getDiskTier_ok_future (c : Cache) (key : String) (now : Int)
    (e : LyricEntry) (h : (getDiskTier c key now).1 = .ok e) :
    now < e.ExpiresAt := by
  unfold getDiskTier at h
  split at h
  · exact absurd h (by simp)
  · split at h
    · exact absurd h (by simp)
    · rename_i entry c' heq
      split at h
      · exact absurd h (by simp)
      · simp only [Except.ok.injEq] at h
        subst h
        omega

/-- C4: `Get` never returns a non-future entry; empty inputs miss; an
expired memory entry is evicted from the memory map and the disk tier is
consulted; a missing file is a miss; an expired file is deleted and
reported expired; an undecodable file is reported corrupt; a
wrong-version file is deleted and reported corrupt; a valid unexpired
file is promoted into memory and returned. -/
theorem C4_get_taxonomy :
    (∀ (c : Cache) (title : String) (now : Int),
        (cacheGet c "" title now).1 = .error .miss) ∧
    (∀ (c : Cache) (artist : String) (now : Int),
        (cacheGet c artist "" now).1 = .error .miss) ∧
    (∀ (c : Cache) (artist title : String) (now : Int) (e : LyricEntry),
        (cacheGet c artist title now).1 = .ok e → now < e.ExpiresAt) ∧
    (∀ (c : Cache) (artist title : String) (now : Int) (e : LyricEntry),
        artist ≠ "" → title ≠ "" →
        c.mem (generateKey artist title) = some e → e.ExpiresAt ≤ now →
        cacheGet c artist title now =
          getDiskTier
            { c with mem := fun k =>
                if k = generateKey artist title then none else c.mem k }
            (generateKey artist title) now) ∧
    (∀ (c : Cache) (key : String) (now : Int),
        c.hasDisk = true → c.disk key = none →
        getDiskTier c key now = (.error .miss, c)) ∧
    (∀ (c : Cache) (key : String) (now : Int) (e : LyricEntry),
        c.hasDisk = true → c.disk key = some (.good e) →
        e.Version = cacheVersion → e.ExpiresAt ≤ now →
        (getDiskTier c key now).1 = .error .expired ∧
        ((getDiskTier c key now).2).disk key = none) ∧
    (∀ (c : Cache) (key : String) (now : Int),
        c.hasDisk = true → c.disk key = some .corrupt →
        getDiskTier c key now = (.error .corrupt, c)) ∧
    (∀ (c : Cache) (key : String) (now : Int) (e : LyricEntry),
        c.hasDisk = true → c.disk key = some (.good e) →
        e.Version ≠ cacheVersion →
        (getDiskTier c key now).1 = .error .corrupt ∧
        ((getDiskTier c key now).2).disk key = none) ∧
    (∀ (c : Cache) (key : String) (now : Int) (e : LyricEntry),
        c.hasDisk = true → c.disk key = some (.good e) →
        e.Version = cacheVersion → now < e.ExpiresAt →
        (getDiskTier c key now).1 = .ok e ∧
        ((getDiskTier c key now).2).mem key = some e) := by
  refine ⟨?_, ?_, ?_, ?_, ?_, ?_, ?_, ?_, ?_⟩
  · intro c title now
    simp [cacheGet]
  · intro c artist now
    simp [cacheGet]
  · intro c artist title now e h
    by_cases hempty : artist = "" ∨ title = ""
    · simp [cacheGet, hempty] at h
    · push_neg at hempty
      simp only [cacheGet, hempty.1, hempty.2, false_or, or_self, if_false] at h
      split at h
      · rename_i entry hm
        split at h
        · rename_i hexp
          simp at h
          subst h
          omega
        · exact getDiskTier_ok_future _ _ _ _ h
      · exact getDiskTier_ok_future _ _ _ _ h
  · intro c artist title now e h1 h2 hmem hexp
    simp only [cacheGet, h1, h2, false_or, or_self, if_false, hmem]
    rw [if_neg (by omega)]
  · intro c key now hdisk hfile
    simp [getDiskTier, hdisk, readFromDisk, hfile]
  · intro c key now e hdisk hfile hver hexp
    simp [getDiskTier, hdisk, readFromDisk, hfile, hver, hexp]
  · intro c key now hdisk hfile
    simp [getDiskTier, hdisk, readFromDisk, hfile]
  · intro c key now e hdisk hfile hver
    simp [getDiskTier, hdisk, readFromDisk, hfile, hver]
  · intro c key now e hdisk hfile hver hexp
    have hle : ¬ (e.ExpiresAt ≤ now) := by omega
    simp [getDiskTier, hdisk, readFromDisk, hfile, hver, hle]

/-- Witness for C4 at a concrete state: an expired entry on disk is
deleted and reported expired. -/
theorem C4_witness :
    (expiredDiskCache.hasDisk = true ∧
     expiredDiskCache.disk "k" = some (.good expiredEntry) ∧
     expiredEntry.Version = cacheVersion ∧
     expiredEntry.ExpiresAt ≤ 50) ∧
    (getDiskTier expiredDiskCache "k" 50).1 = .error .expired ∧
    ((getDiskTier expiredDiskCache "k" 50).2).disk "k" = none :=
  ⟨⟨rfl, rfl, by decide, by decide⟩,
   C4_get_taxonomy.2.2.2.2.2.1 expiredDiskCache "k" 50 expiredEntry
     rfl rfl (by decide) (by decide)⟩

/-- `Char.ofNat` round-trips on code points below the surrogate range. -/
theorem toNat_ofNat_valid (n : Nat) (h : n < 55296) : (Char.ofNat n).toNat = n := by
  have hv : n.isValidChar := Or.inl h
  simp only [Char.ofNat, hv, dif_pos]
  rfl

/-- ASCII lower-casing is idempotent. -/
theorem lowerChar_idem (c : Char) : lowerChar (lowerChar c) = lowerChar c := by
  unfold lowerChar
  by_cases h : 65 ≤ c.toNat ∧ c.toNat ≤ 90
  · rw [if_pos h]
    have h2 : (Char.ofNat (c.toNat + 32)).toNat = c.toNat + 32 :=
      toNat_ofNat_valid _ (by omega)
    rw [if_neg (by rw [h2]; omega)]
  · rw [if_neg h, if_neg h]

/-- `strings.ToLower` is idempotent. -/
theorem goToLower_idem (s : String) : goToLower (goToLower s) = goToLower s := by
  simp only [goToLower, List.map_map]
  congr 1
  apply List.map_congr_left
  intro c _
  exact lowerChar_idem c

theorem length_bytesBE (k : Nat) : ∀ n, (bytesBE k n).length = k := by
  induction k with
  | zero => intro n; rfl
  | succ k ih => intro n; simp [bytesBE, ih]

theorem length_sha256 (msg : List Nat) : (sha256 msg).length = 32 := by
  unfold sha256
  simp [List.flatMap_cons, List.flatMap_nil, List.length_append, length_bytesBE]

theorem length_hexEncode (l : List Nat) : (hexEncode l).length = 2 * l.length := by
  induction l with
  | nil => rfl
  | cons b rest ih =>
    simp only [hexEncode, List.flatMap_cons] at ih ⊢
    simp only [List.length_append, List.length_cons, List.length_nil, ih]
    omega

theorem mem_bytesBE (k : Nat) : ∀ n b, b ∈ bytesBE k n → b < 256 := by
  induction k with
  | zero => intro n b h; simp [bytesBE] at h
  | succ k ih =>
    intro n b h
    simp only [bytesBE, List.mem_append, List.mem_singleton] at h
    rcases h with h | h
    · exact ih _ _ h
    · subst h
      exact Nat.mod_lt _ (by omega)

theorem hexDigitChar_mem (n : Nat) (h : n < 16) :
    hexDigitChar n ∈ "0123456789abcdef".data := by
  interval_cases n <;> decide

theorem mem_sha256_lt (msg : List Nat) (b : Nat) (h : b ∈ sha256 msg) : b < 256 := by
  unfold sha256 at h
  simp only [List.mem_flatMap] at h
  obtain ⟨w, _, hw⟩ := h
  exact mem_bytesBE 4 w b hw

/-- C8: `generateKey` is deterministic and case-insensitive
(`generateKey a t = generateKey (lower a) (lower t)`, so `"Abc","X"` and
`"abc","x"` agree), and always yields a fixed-width hex string: 24
characters drawn from the lower-case hex alphabet (the truncated SHA-256
of `lower(artist) + "|" + lower(title)`). -/
theorem C8_key_determinism :
    (∀ a t : String, generateKey a t = generateKey (goToLower a) (goToLower t)) ∧
    generateKey "Abc" "X" = generateKey "abc" "x" ∧
    (∀ a t : String, (generateKey a t).length = 24) ∧
    (∀ a t : String, ∀ ch ∈ (generateKey a t).data, ch ∈ "0123456789abcdef".data) := by
  have hcase : ∀ a t : String, generateKey a t = generateKey (goToLower a) (goToLower t) := by
    intro a t
    unfold generateKey
    rw [goToLower_idem, goToLower_idem]
  refine ⟨hcase, ?_, ?_, ?_⟩
  · rw [hcase "Abc" "X"]
    have h1 : goToLower "Abc" = "abc" := by decide
    have h2 : goToLower "X" = "x" := by decide
    rw [h1, h2]
  · intro a t
    show (hexEncode ((sha256 _).take 12)).length = 24
    rw [length_hexEncode, List.length_take, length_sha256]
    decide
  · intro a t ch hch
    have hch' : ch ∈ hexEncode ((sha256
        (strBytes (goToLower a ++ "|" ++ goToLower t))).take 12) := hch
    simp only [hexEncode, List.mem_flatMap] at hch'
    obtain ⟨b, hb, hbc⟩ := hch'
    have hb256 : b < 256 :=
      mem_sha256_lt _ b (List.take_subset 12 _ hb)
    simp only [List.mem_cons, List.mem_singleton, List.not_mem_nil, or_false] at hbc
    rcases hbc with h | h
    · subst h
      exact hexDigitChar_mem _ (by omega)
    · subst h
      exact hexDigitChar_mem _ (Nat.mod_lt _ (by omega))

set_option maxRecDepth 40000 in
/-- Witness for C8's hex-alphabet conjunct at a concrete key. -/
theorem C8_witness :
    ('3' : Char) ∈ (generateKey "abc" "x").data ∧
    ('3' : Char) ∈ "0123456789abcdef".data :=
  ⟨by decide, C8_key_determinism.2.2.2 "abc" "x" '3' (by decide)⟩

/-- When the normalized artist and title are non-empty, the first
candidate the resolver tries is the fully-qualified normalized one. -/
theorem uniqueStrategies_head (q : TrackParams)
    (hA : normalizeString q.Artist ≠ "") (hT : normalizeString q.Title ≠ "") :
    ∃ rest, uniqueStrategies q =
      ⟨normalizeString q.Artist, normalizeString q.Title, q.Album, q.DurationSecs⟩ :: rest := by
  unfold uniqueStrategies strategies8
  rw [dedupStrategiesAux]
  rw [if_neg (by simp [hA, hT]), if_neg (by simp)]
  exact ⟨_, rfl⟩

/-- If `normalizeString s` is non-empty then so is `s`. -/
theorem ne_empty_of_normalize_ne_empty (s : String)
    (h : normalizeString s ≠ "") : s ≠ "" := by
  intro he
  subst he
  exact h rfl

/-- A timing-out candidate aborts the loop with exactly that one request. -/
theorem fetchLoop_timeout (remote : Strategy → Except RemoteErr LrclibResponse)
    (s : Strategy) (rest : List Strategy) (last : Option LoopErr) (e : RemoteErr)
    (he : remote s = .error e) (ht : isTimeoutError e = true) :
    fetchLoop remote (s :: rest) last = (.timeout, [s]) := by
  unfold fetchLoop
  rw [he]
  simp [ht]

/-- C2: if a candidate request fails with a timeout, `Fetch` returns the
fatal "service too slow" error immediately and issues no further request
(with an always-timing-out stub exactly one request is made); a
non-timeout failure is recorded as the last error and the loop proceeds
to the next candidate. -/
theorem C2_timeout_short_circuit :
    (∀ (c : Cache) (remote : Strategy → Except RemoteErr LrclibResponse)
        (q : TrackParams) (now : Int) (dw : Bool),
        normalizeString q.Artist ≠ "" → normalizeString q.Title ≠ "" →
        (∃ err c2, cacheGet c q.Artist q.Title now = (.error err, c2)) →
        (∀ s, ∃ e, remote s = .error e ∧ isTimeoutError e = true) →
        (Fetch c remote q now dw).result = .error .tooSlow ∧
        (Fetch c remote q now dw).requests.length = 1) ∧
    (∀ (remote : Strategy → Except RemoteErr LrclibResponse)
        (s : Strategy) (rest : List Strategy) (last : Option LoopErr) (e : RemoteErr),
        remote s = .error e → isTimeoutError e = false →
        fetchLoop remote (s :: rest) last =
          ((fetchLoop remote rest (some (.transport e))).1,
           s :: (fetchLoop remote rest (some (.transport e))).2)) := by
  constructor
  · intro c remote q now dw hA hT hmiss hTO
    have hTitle : q.Title ≠ "" := ne_empty_of_normalize_ne_empty _ hT
    have hArtist : q.Artist ≠ "" := ne_empty_of_normalize_ne_empty _ hA
    obtain ⟨err, c2, heq⟩ := hmiss
    obtain ⟨rest, hhead⟩ := uniqueStrategies_head q hA hT
    obtain ⟨e, he, ht⟩ := hTO ⟨normalizeString q.Artist, normalizeString q.Title,
      q.Album, q.DurationSecs⟩
    have hloop := fetchLoop_timeout remote _ rest none e he ht
    unfold Fetch
    rw [if_neg (by simp [hTitle, hArtist]), if_neg (by simp [hT, hA]), heq, hhead, hloop]
    exact ⟨rfl, rfl⟩
  · intro remote s rest last e he ht
    conv_lhs => rw [fetchLoop]
    rw [he]
    simp [ht]

/-- Witness for C2 with the always-timeout stub at a concrete query. -/
theorem C2_witness :
    (Fetch emptyCache timeoutStub sampleQuery 0 true).result = .error .tooSlow ∧
    (Fetch emptyCache timeoutStub sampleQuery 0 true).requests.length = 1 :=
  C2_timeout_short_circuit.1 emptyCache timeoutStub sampleQuery 0 true
    (by decide) (by decide) ⟨.miss, emptyCache, rfl⟩
    (fun s => ⟨⟨true, "context deadline exceeded"⟩, rfl, rfl⟩)

/-- After any run of soft failures, an accepted (contentful) response
ends the loop with exactly the requests up to and including it. -/
theorem fetchLoop_accept (remote : Strategy → Except RemoteErr LrclibResponse)
    (s : Strategy) (post : List Strategy) (p : LrclibResponse)
    (hok : remote s = .ok p) (hcontent : emptyPayload p = false) :
    ∀ (pre : List Strategy) (last : Option LoopErr),
      (∀ s2 ∈ pre, softFail remote s2) →
      fetchLoop remote (pre ++ s :: post) last = (.success p, pre ++ [s]) := by
  intro pre
  induction pre with
  | nil =>
    intro last _
    rw [List.nil_append]
    conv_lhs => rw [fetchLoop]
    rw [hok]
    simp [hcontent]
  | cons s2 pre ih =>
    intro last hsoft
    have hs2 := hsoft s2 (List.mem_cons_self s2 pre)
    have hrest : ∀ x ∈ pre, softFail remote x := fun x hx =>
      hsoft x (List.mem_cons_of_mem _ hx)
    rcases hs2 with ⟨e, he, ht⟩ | ⟨p2, hp2, hempty⟩
    · rw [List.cons_append]
      conv_lhs => rw [fetchLoop]
      rw [he]
      simp [ht, ih (some (.transport e)) hrest]
    · rw [List.cons_append]
      conv_lhs => rw [fetchLoop]
      rw [hp2]
      simp [hempty, ih (some .noLyrics) hrest]

/-- C6: `Fetch` consults the cache under the original artist/title first
and returns a hit without any request; an accepted remote response is
persisted under the original artist/title and returned immediately, the
remaining candidates skipped, whatever the outcome of the cache write. -/
theorem C6_cache_first :
    (∀ (c : Cache) (remote : Strategy → Except RemoteErr LrclibResponse)
        (q : TrackParams) (now : Int) (dw : Bool) (e : LyricEntry) (c2 : Cache),
        normalizeString q.Artist ≠ "" → normalizeString q.Title ≠ "" →
        cacheGet c q.Artist q.Title now = (.ok e, c2) →
        Fetch c remote q now dw = ⟨.ok (respOfEntry e), [], c2⟩) ∧
    (∀ (c : Cache) (remote : Strategy → Except RemoteErr LrclibResponse)
        (q : TrackParams) (now : Int) (dw : Bool) (err : CacheErr) (c2 : Cache)
        (pre : List Strategy) (s : Strategy) (post : List Strategy) (p : LrclibResponse),
        normalizeString q.Artist ≠ "" → normalizeString q.Title ≠ "" →
        cacheGet c q.Artist q.Title now = (.error err, c2) →
        uniqueStrategies q = pre ++ s :: post →
        (∀ s2 ∈ pre, softFail remote s2) →
        remote s = .ok p → emptyPayload p = false →
        Fetch c remote q now dw =
          ⟨.ok p, pre ++ [s],
           (cacheSet c2 q.Artist q.Title (some (entryOfPayload p)) now dw).2⟩) := by
  constructor
  · intro c remote q now dw e c2 hA hT hget
    have hTitle : q.Title ≠ "" := ne_empty_of_normalize_ne_empty _ hT
    have hArtist : q.Artist ≠ "" := ne_empty_of_normalize_ne_empty _ hA
    unfold Fetch
    rw [if_neg (by simp [hTitle, hArtist]), if_neg (by simp [hT, hA]), hget]
  · intro c remote q now dw err c2 pre s post p hA hT hget hcands hsoft hok hcontent
    have hTitle : q.Title ≠ "" := ne_empty_of_normalize_ne_empty _ hT
    have hArtist : q.Artist ≠ "" := ne_empty_of_normalize_ne_empty _ hA
    have hloop := fetchLoop_accept remote s post p hok hcontent pre none hsoft
    unfold Fetch
    rw [if_neg (by simp [hTitle, hArtist]), if_neg (by simp [hT, hA]), hget, hcands, hloop]

/-- Witness for C6 at a concrete query, with a failing cache write. -/
theorem C6_witness :
    Fetch emptyCache acceptStub sampleQuery 5 false =
      ⟨.ok samplePayload, [] ++ [⟨"a", "b", "", 0⟩],
       (cacheSet emptyCache "a" "b" (some (entryOfPayload samplePayload)) 5 false).2⟩ :=
  C6_cache_first.2 emptyCache acceptStub sampleQuery 5 false .miss emptyCache
    [] ⟨"a", "b", "", 0⟩ [⟨"A", "B", "", 0⟩] samplePayload
    (by decide) (by decide) rfl (by decide) (by simp) rfl rfl

/-- C3 (failing input): for the query artist `"a"`, title `"b"`, album
`"al"`, duration 5, the second issued candidate specifies no album and
the third no duration, yet — because `Fetch` re-reads the query string
left in `parsedURL` by the previous iteration and never deletes
`album_name`/`duration` — the second request still carries
`album_name=al` and the third still carries `duration=5`, contradicting
the code's own strategy comments ("without album", "without album or
duration"). -/
theorem C3_stale_query_params :
    (uniqueStrategies ⟨"b", "a", "al", 5⟩).getD 1 ⟨"", "", "", 0⟩ = ⟨"a", "b", "", 5⟩ ∧
    ("album_name", "al") ∈ (issuedQueries ⟨"b", "a", "al", 5⟩).getD 1 [] ∧
    (uniqueStrategies ⟨"b", "a", "al", 5⟩).getD 2 ⟨"", "", "", 0⟩ = ⟨"a", "b", "", 0⟩ ∧
    ("duration", "5") ∈ (issuedQueries ⟨"b", "a", "al", 5⟩).getD 2 [] := by
  decide

/-- The loop accumulator in closed form: the number of leading lines at
or before the position decides the result. -/
theorem findCurrentAux_eq (pos : ℚ) :
    ∀ (lines : List TimedLine) (i index : Int),
      findCurrentAux pos lines i index =
        if (lines.takeWhile fun l => decide (l.TimeSeconds ≤ pos)).length = 0 then index
        else i + (lines.takeWhile fun l => decide (l.TimeSeconds ≤ pos)).length - 1 := by
  intro lines
  induction lines with
  | nil => intro i index; simp [findCurrentAux]
  | cons l rest ih =>
    intro i index
    by_cases hp : l.TimeSeconds ≤ pos
    · rw [findCurrentAux, if_pos hp, ih (i + 1) i]
      simp only [List.takeWhile_cons, hp, decide_True, if_true, List.length_cons]
      split
      · rename_i hz
        rw [hz]
        simp
      · rename_i hz
        rw [if_neg (by omega)]
        omega
    · rw [findCurrentAux, if_neg hp]
      simp [List.takeWhile_cons, hp]

/-- Every line inside the `takeWhile` prefix is at or before `pos`. -/
theorem takeWhile_le (pos : ℚ) :
    ∀ (lines : List TimedLine) (j : Nat) (hj : j < lines.length),
      j < (lines.takeWhile fun l => decide (l.TimeSeconds ≤ pos)).length →
      (lines.get ⟨j, hj⟩).TimeSeconds ≤ pos := by
  intro lines
  induction lines with
  | nil => intro j hj; simp at hj
  | cons l rest ih =>
    intro j hj hcnt
    by_cases hp : l.TimeSeconds ≤ pos
    · match j with
      | 0 => exact hp
      | j + 1 =>
        simp only [List.takeWhile_cons, hp, decide_True, if_true, List.length_cons] at hcnt
        exact ih j (by simpa using hj) (by omega)
    · simp [List.takeWhile_cons, hp] at hcnt

/-- Beyond the `takeWhile` prefix of a chronological list, every line is
strictly after `pos`. -/
theorem beyond_gt (pos : ℚ) :
    ∀ (lines : List TimedLine), Chronological lines →
      ∀ (j : Nat) (hj : j < lines.length),
        (lines.takeWhile fun l => decide (l.TimeSeconds ≤ pos)).length ≤ j →
        pos < (lines.get ⟨j, hj⟩).TimeSeconds := by
  intro lines
  induction lines with
  | nil => intro _ j hj; simp at hj
  | cons l rest ih =>
    intro hch j hj hcnt
    rw [Chronological, List.pairwise_cons] at hch
    obtain ⟨hhead, htail⟩ := hch
    by_cases hp : l.TimeSeconds ≤ pos
    · simp only [List.takeWhile_cons, hp, decide_True, if_true, List.length_cons] at hcnt
      match j with
      | 0 => omega
      | j + 1 => exact ih htail j (by simpa using hj) (by omega)
    · have hlt : pos < l.TimeSeconds := lt_of_not_ge hp
      match j with
      | 0 => exact hlt
      | j + 1 =>
        exact lt_of_lt_of_le hlt
          (hhead _ (List.get_mem rest j (by simpa using hj)))

/-- C9: `"[00:01.50]Hello\n[00:03.00]World"` parses to exactly the timed
lines `(1.5, "Hello")` and `(3, "World")` in source order; on every
chronologically ordered line list, `FindCurrentLineIndex` returns the
index of the last line whose timestamp is ≤ the position (`-1` when the
position precedes every timestamp); and on that example positions 2, 0.5
and 10 give 0, −1 and 1. -/
theorem C9_parse_and_lookup :
    ParseSynced "[00:01.50]Hello\n[00:03.00]World" =
      [⟨3 / 2, "Hello"⟩, ⟨3, "World"⟩] ∧
    (∀ (lines : List TimedLine) (pos : ℚ), Chronological lines →
        IsLastLE lines pos (FindCurrentLineIndex lines pos)) ∧
    FindCurrentLineIndex [⟨3 / 2, "Hello"⟩, ⟨3, "World"⟩] 2 = 0 ∧
    FindCurrentLineIndex [⟨3 / 2, "Hello"⟩, ⟨3, "World"⟩] (1 / 2) = -1 ∧
    FindCurrentLineIndex [⟨3 / 2, "Hello"⟩, ⟨3, "World"⟩] 10 = 1 := by
  refine ⟨by with_unfolding_all decide, ?_, by with_unfolding_all decide,
    by with_unfolding_all decide, by with_unfolding_all decide⟩
  intro lines pos hch
  by_cases hnil : lines = []
  · subst hnil
    exact Or.inl ⟨rfl, by simp⟩
  · rw [FindCurrentLineIndex, if_neg hnil, findCurrentAux_eq]
    by_cases hcnt : (lines.takeWhile fun l => decide (l.TimeSeconds ≤ pos)).length = 0
    · rw [if_pos hcnt]
      refine Or.inl ⟨rfl, fun l hl => ?_⟩
      obtain ⟨⟨j, hj⟩, rfl⟩ := List.mem_iff_get.mp hl
      exact beyond_gt pos lines hch j hj (by omega)
    · rw [if_neg hcnt]
      have hlen : (lines.takeWhile fun l => decide (l.TimeSeconds ≤ pos)).length ≤
          lines.length := (List.takeWhile_sublist _).length_le
      refine Or.inr ⟨(lines.takeWhile fun l => decide (l.TimeSeconds ≤ pos)).length - 1,
        by omega, by omega, ?_, ?_⟩
      · exact takeWhile_le pos lines _ (by omega) (by omega)
      · intro j hj hgt
        exact beyond_gt pos lines hch j hj (by omega)

/-- Witness for C9's lookup characterization at the parsed example. -/
theorem C9_witness :
    Chronological [⟨3 / 2, "Hello"⟩, ⟨3, "World"⟩] ∧
    IsLastLE [⟨3 / 2, "Hello"⟩, ⟨3, "World"⟩] 2
      (FindCurrentLineIndex [⟨3 / 2, "Hello"⟩, ⟨3, "World"⟩] 2) := by
  have hch : Chronological [⟨3 / 2, "Hello"⟩, ⟨3, "World"⟩] := by
    rw [Chronological]
    refine List.Pairwise.cons ?_ (List.pairwise_singleton _ _)
    intro b hb
    simp only [List.mem_singleton] at hb
    subst hb
    norm_num
  exact ⟨hch, C9_parse_and_lookup.2.1 _ 2 hch⟩

/-- Witness for C7's characterization at the claim's own numbers. -/
theorem C7_witness : DetectSeek ⟨some 0, 10⟩ (0 + 5) 25 = true :=
  (C7_seek_heuristic.1 10 0 5 25).mpr (by decide)
